import Mathlib

/-!
Shallow embedding of the Benchmark Analytics Engine core
(`src/core/analyzer.py`, class `PortfolioAnalyzer`).

Prices and returns are modelled as exact rationals; metrics whose Python
counterparts involve a square root or a real power are modelled in `ℝ`.
A pandas `Series` is a list of (date, value) pairs with dates as naturals;
a pandas `DataFrame` of prices is a date index plus named value columns.
`Option` stands for the `None` / empty-dict failure results of the code.
-/

namespace Analyzer

/-- Mean of a list of rationals: `Series.mean()` (sum divided by length;
an empty list yields `0/0 = 0`). -/
def mean (l : List ℚ) : ℚ := l.sum / l.length

/-- Population variance, divisor `n`: `np.var(x)` (default `ddof=0`). -/
def var0 (l : List ℚ) : ℚ := (l.map (fun x => (x - mean l) ^ 2)).sum / l.length

/-- Sample variance, divisor `n - 1`: square of `Series.std()`
(pandas default `ddof=1`). -/
def var1 (l : List ℚ) : ℚ :=
  (l.map (fun x => (x - mean l) ^ 2)).sum / ((l.length : ℚ) - 1)

/-- Sample covariance, divisor `n - 1`: `np.cov(p, b)[0, 1]`
(numpy default `bias=False`, i.e. `ddof=1`). -/
def cov1 (p b : List ℚ) : ℚ :=
  ((p.zip b).map (fun x => (x.1 - mean p) * (x.2 - mean b))).sum /
    ((p.length : ℚ) - 1)

/-- Unbiased standard deviation `Series.std()`, as a real number. -/
noncomputable def std (l : List ℚ) : ℝ := Real.sqrt (var1 l)

/-- Simple percentage change between consecutive values:
`Series.pct_change().dropna()` (the first entry is lost on differencing;
with everywhere-defined rational prices `dropna` removes exactly it). -/
def pctChange (l : List ℚ) : List ℚ :=
  (l.tail.zip l).map (fun q => q.1 / q.2 - 1)

/-- Running products `a*(1+r₁), a*(1+r₁)*(1+r₂), ...` — helper for
`(1 + returns).cumprod()`. -/
def cumprodAux : ℚ → List ℚ → List ℚ
  | _, [] => []
  | a, r :: rs => (a * (1 + r)) :: cumprodAux (a * (1 + r)) rs

/-- Cumulative value series `(1 + returns).cumprod()`. -/
def cumprod (l : List ℚ) : List ℚ := cumprodAux 1 l

/-- Running maximum `Series.expanding().max()`. -/
def runningMax : List ℚ → List ℚ
  | [] => []
  | x :: xs => x :: (runningMax xs).map (max x)

/-- Minimum of a list, `Series.min()`; `0` on the empty list (the code
never takes the minimum of an empty drawdown series on the paths we model). -/
def listMin : List ℚ → ℚ
  | [] => 0
  | x :: xs => xs.foldl min x

/-- Annual risk-free rate converted to a daily compounding rate:
`(1 + risk_free_rate) ** (1/252) - 1` from `PortfolioAnalyzer.__init__`. -/
noncomputable def risk_free_rate_daily (rf : ℝ) : ℝ :=
  (1 + rf) ^ ((1 : ℝ) / 252) - 1

/-- `_calculate_total_return`: `(1 + returns).prod() - 1`. -/
def calculate_total_return (l : List ℚ) : ℚ :=
  (l.map (fun r => 1 + r)).prod - 1

/-- `_calculate_excess_return`: difference of the two total returns. -/
def calculate_excess_return (p b : List ℚ) : ℚ :=
  calculate_total_return p - calculate_total_return b

/-- `_calculate_volatility`: `returns.std() * np.sqrt(252)`. -/
noncomputable def calculate_volatility (l : List ℚ) : ℝ :=
  std l * Real.sqrt 252

/-- `_calculate_sharpe_ratio`:
`excess = returns - rf_daily; if returns.std() == 0: 0;
else excess.mean() * 252 / (returns.std() * sqrt(252))`.
The guard is stated on `var1 l = 0`, which is decidable over `ℚ` and is
equivalent to `std l = 0` (see `std_eq_zero_iff`). -/
noncomputable def calculate_sharpe_ratio (rf : ℝ) (l : List ℚ) : ℝ :=
  if var1 l = 0 then 0
  else ((l.map (fun r => (r : ℝ) - risk_free_rate_daily rf)).sum / l.length)
        * 252 / (std l * Real.sqrt 252)

/-- `_calculate_beta`: `np.cov(p, b)[0,1] / np.var(b)`, with the
`variance == 0 → 0` guard.  Note the code mixes estimators: the covariance
divisor is `n - 1` while the variance divisor is `n`. -/
def calculate_beta (p b : List ℚ) : ℚ :=
  if var0 b = 0 then 0 else cov1 p b / var0 b

/-- `_calculate_alpha` (Jensen's alpha). -/
noncomputable def calculate_alpha (rf : ℝ) (p b : List ℚ) : ℝ :=
  (mean p : ℝ) * 252 -
    (rf + (calculate_beta p b : ℝ) * ((mean b : ℝ) * 252 - rf))

/-- `_calculate_correlation`: Pearson correlation `p.corr(b)`
(`cov₁ / (std·std)`; real division by zero is `0` where pandas yields NaN
for a constant series — a degenerate case no claim relies on). -/
noncomputable def calculate_correlation (p b : List ℚ) : ℝ :=
  (cov1 p b : ℝ) / (std p * std b)

/-- `_calculate_r_squared`: square of the correlation. -/
noncomputable def calculate_r_squared (p b : List ℚ) : ℝ :=
  (calculate_correlation p b) ^ 2

/-- `_calculate_tracking_error`: `(p - b).std() * sqrt(252)` on the
index-aligned difference series. -/
noncomputable def calculate_tracking_error (p b : List ℚ) : ℝ :=
  std (List.zipWith (· - ·) p b) * Real.sqrt 252

/-- `_calculate_information_ratio`, with the `tracking_error == 0 → 0`
guard stated on the decidable `var1` of the difference series. -/
noncomputable def calculate_information_ratio (p b : List ℚ) : ℝ :=
  if var1 (List.zipWith (· - ·) p b) = 0 then 0
  else (mean (List.zipWith (· - ·) p b) : ℝ) * 252 /
        calculate_tracking_error p b

/-- Drawdown series `(cumulative - running_max) / running_max` from
`_calculate_max_drawdown`. -/
def drawdowns (l : List ℚ) : List ℚ :=
  List.zipWith (fun c m => (c - m) / m) (cumprod l) (runningMax (cumprod l))

/-- `_calculate_max_drawdown`: minimum of the drawdown series. -/
def calculate_max_drawdown (l : List ℚ) : ℚ := listMin (drawdowns l)

/-- Linear-interpolated percentile of `np.percentile(a, pct)`:
sort ascending, position `pct/100 * (n-1)`, interpolate between the
bracketing order statistics. -/
def percentile (pct : ℚ) (l : List ℚ) : ℚ :=
  let s := l.insertionSort (· ≤ ·)
  let n := s.length
  if n = 0 then 0
  else
    let pos : ℚ := pct * ((n : ℚ) - 1) / 100
    let k : ℕ := (⌊pos⌋).toNat
    let frac : ℚ := pos - (k : ℚ)
    let lower := s.getD k 0
    let upper := s.getD (k + 1) lower
    lower + frac * (upper - lower)

/-- `_calculate_var`: `np.percentile(returns, (1 - confidence) * 100)`. -/
def calculate_var (confidence : ℚ) (l : List ℚ) : ℚ :=
  percentile ((1 - confidence) * 100) l

/-- `_calculate_up_capture`: means restricted to days with benchmark
return `> 0`; `0` when there is no such day or the benchmark mean is `0`. -/
def calculate_up_capture (p b : List ℚ) : ℚ :=
  let pairs := (p.zip b).filter (fun x => 0 < x.2)
  if pairs = [] then 0
  else
    let bm := mean (pairs.map Prod.snd)
    if bm = 0 then 0 else mean (pairs.map Prod.fst) / bm

/-- `_calculate_down_capture`: as `calculate_up_capture` with `< 0` days. -/
def calculate_down_capture (p b : List ℚ) : ℚ :=
  let pairs := (p.zip b).filter (fun x => x.2 < 0)
  if pairs = [] then 0
  else
    let bm := mean (pairs.map Prod.snd)
    if bm = 0 then 0 else mean (pairs.map Prod.fst) / bm

/-- `_calculate_calmar_ratio`: `total_return / abs(max_drawdown)`, `0`
when the absolute max drawdown is `0`. -/
def calculate_calmar_ratio (l : List ℚ) : ℚ :=
  if |calculate_max_drawdown l| = 0 then 0
  else calculate_total_return l / |calculate_max_drawdown l|

/-- A pandas `Series` with a date index: dates paired positionally with
rational values. -/
structure PSeries where
  dates : List ℕ
  values : List ℚ
  deriving DecidableEq

/-- A pandas `DataFrame` of prices: a shared date index and named
columns of values (every column has the length of the index). -/
structure DataFrame where
  dates : List ℕ
  cols : List (String × List ℚ)
  deriving DecidableEq

/-- Row-wise mean `DataFrame.mean(axis=1)` over `n` rows. -/
def rowMeans (n : ℕ) (cols : List (List ℚ)) : List ℚ :=
  (List.range n).map (fun i => (cols.map (fun c => c.getD i 0)).sum / (cols.length : ℚ))

/-- Return column of one instrument: `prices.pct_change().dropna()[symbol]`
(missing symbol yields the empty column; the code only reads columns it
has checked for membership). -/
def stockReturn (df : DataFrame) (s : String) : List ℚ :=
  pctChange ((df.cols.lookup s).getD [])

/-- `_calculate_portfolio_returns`: equal-weighted row mean when no
weights are given; otherwise the running sum of `returns[symbol] * weight`
over supplied weights whose symbol is a price column, divided at the end
by the total supplied weight when that total is nonzero. -/
def calculate_portfolio_returns (df : DataFrame)
    (weights : Option (List (String × ℚ))) : List ℚ :=
  match weights with
  | none => rowMeans (df.dates.length - 1) (df.cols.map (fun c => pctChange c.2))
  | some ws =>
      let base : List ℚ := List.replicate (df.dates.length - 1) 0
      let acc := ws.foldl (fun a sw =>
        if (df.cols.map Prod.fst).contains sw.1 then
          List.zipWith (· + ·) a ((stockReturn df sw.1).map (fun r => r * sw.2))
        else a) base
      let total := (ws.map Prod.snd).sum
      if total ≠ 0 then acc.map (fun x => x / total) else acc

/-- Ordered common dates of two series:
`portfolio.index.intersection(benchmark.index)` (order of the calling
index, which coincides with ascending order for sorted unique indices). -/
def common_dates (a b : PSeries) : List ℕ :=
  a.dates.filter (fun d => b.dates.contains d)

/-- Value of a series at a date (`series.loc[date]`), `0` when absent. -/
def lookupVal (s : PSeries) (d : ℕ) : ℚ :=
  (((s.dates.zip s.values).lookup d)).getD 0

/-- `series.loc[common_dates]`: restrict and reorder to a date list. -/
def reindex (s : PSeries) (ds : List ℕ) : PSeries :=
  ⟨ds, ds.map (lookupVal s)⟩

/-- `_align_data`: `None` when fewer than 30 common dates, otherwise the
two series restricted to the common dates. -/
def align_data (a b : PSeries) : Option (PSeries × PSeries) :=
  if (common_dates a b).length < 30 then none
  else some (reindex a (common_dates a b), reindex b (common_dates a b))

/-- `_calculate_cumulative_returns`: dates of the aligned window paired
with the two cumulative products of `(1 + return)`. -/
def calculate_cumulative_returns (pa pb : PSeries) : List (ℕ × ℚ × ℚ) :=
  pa.dates.zip ((cumprod pa.values).zip (cumprod pb.values))

/-- Portfolio return series entering alignment: values from
`_calculate_portfolio_returns`, indexed by the price dates minus the
first (lost to differencing). -/
def portRetOf (df : DataFrame) (weights : Option (List (String × ℚ))) : PSeries :=
  ⟨df.dates.tail, calculate_portfolio_returns df weights⟩

/-- Benchmark return series `benchmark_prices.pct_change().dropna()`. -/
def benchRetOf (b : PSeries) : PSeries :=
  ⟨b.dates.tail, pctChange b.values⟩

/-- The results dictionary built by `analyze_portfolio_vs_benchmark`,
as an immutable record (one field per dictionary key). -/
structure AnalysisResult where
  portfolio_name : String
  benchmark_name : String
  analysis_date : ℕ
  data_points : ℕ
  start_date : ℕ
  end_date : ℕ
  weights_used : Option (List (String × ℚ))
  portfolio_total_return : ℚ
  benchmark_total_return : ℚ
  excess_return : ℚ
  portfolio_volatility : ℝ
  benchmark_volatility : ℝ
  portfolio_sharpe_ratio : ℝ
  benchmark_sharpe_ratio : ℝ
  alpha : ℝ
  beta : ℚ
  correlation : ℝ
  r_squared : ℝ
  tracking_error : ℝ
  information_ratio : ℝ
  max_drawdown : ℚ
  var_95 : ℚ
  var_99 : ℚ
  up_capture : ℚ
  down_capture : ℚ
  calmar_ratio : ℚ
  portfolio_returns : PSeries
  benchmark_returns : PSeries
  cumulative_returns : List (ℕ × ℚ × ℚ)

/-- `analyze_portfolio_vs_benchmark`: compute both return series, align
them (empty-dict failure modelled as `none`), then assemble every metric
of the results dictionary over the aligned window.  `today` is the value
`datetime.now()` would format into `analysis_date`; `rf` is the annual
risk-free rate fixed at construction of `PortfolioAnalyzer`. -/
noncomputable def analyze_portfolio_vs_benchmark (df : DataFrame)
    (bench : PSeries) (pname bname : String)
    (weights : Option (List (String × ℚ))) (rf : ℝ) (today : ℕ) :
    Option AnalysisResult :=
  match align_data (portRetOf df weights) (benchRetOf bench) with
  | none => none
  | some (pa, ba) => some {
      portfolio_name := pname
      benchmark_name := bname
      analysis_date := today
      data_points := pa.values.length
      start_date := pa.dates.headD 0
      end_date := pa.dates.getLastD 0
      weights_used := weights
      portfolio_total_return := calculate_total_return pa.values
      benchmark_total_return := calculate_total_return ba.values
      excess_return := calculate_excess_return pa.values ba.values
      portfolio_volatility := calculate_volatility pa.values
      benchmark_volatility := calculate_volatility ba.values
      portfolio_sharpe_ratio := calculate_sharpe_ratio rf pa.values
      benchmark_sharpe_ratio := calculate_sharpe_ratio rf ba.values
      alpha := calculate_alpha rf pa.values ba.values
      beta := calculate_beta pa.values ba.values
      correlation := calculate_correlation pa.values ba.values
      r_squared := calculate_r_squared pa.values ba.values
      tracking_error := calculate_tracking_error pa.values ba.values
      information_ratio := calculate_information_ratio pa.values ba.values
      max_drawdown := calculate_max_drawdown pa.values
      var_95 := calculate_var (95 / 100) pa.values
      var_99 := calculate_var (99 / 100) pa.values
      up_capture := calculate_up_capture pa.values ba.values
      down_capture := calculate_down_capture pa.values ba.values
      calmar_ratio := calculate_calmar_ratio pa.values
      portfolio_returns := pa
      benchmark_returns := ba
      cumulative_returns := calculate_cumulative_returns pa ba }

/-- Copy of a result with the wall-clock `analysis_date` field zeroed —
used to state which fields depend only on the inputs. -/
noncomputable def eraseDate (r : AnalysisResult) : AnalysisResult :=
  { r with analysis_date := 0 }

/-- A value stored in a results dictionary handed to `format_results`:
a number, a string, or a series (the raw-data entries). -/
inductive Val where
  | num (q : ℚ)
  | str (s : String)
  | series (l : List (ℕ × ℚ))
  deriving DecidableEq

/-- The `percentage_fields` list of `format_results`. -/
def percentageFields : List String :=
  ["portfolio_total_return", "benchmark_total_return", "excess_return",
   "portfolio_volatility", "benchmark_volatility", "alpha",
   "tracking_error", "max_drawdown", "var_95", "var_99"]

/-- The `decimal_fields` list of `format_results`. -/
def decimalFields : List String :=
  ["portfolio_sharpe_ratio", "benchmark_sharpe_ratio", "beta",
   "correlation", "r_squared", "information_ratio",
   "up_capture", "down_capture", "calmar_ratio"]

/-- Round half to even, Python's `round` on a rational value. -/
def rhe (q : ℚ) : ℤ :=
  let f := ⌊q⌋
  let r := q - f
  if r < 1 / 2 then f
  else if 1 / 2 < r then f + 1
  else if Even f then f else f + 1

/-- Python's `round(q, n)`: half-even rounding to `n` decimal places. -/
def pround (n : ℕ) (q : ℚ) : ℚ := (rhe (q * 10 ^ n) : ℚ) / 10 ^ n

/-- Apply a numeric transformation to a dictionary value (the fields the
code transforms only ever hold numbers). -/
def fmtNum (f : ℚ → ℚ) : Val → Val
  | Val.num q => Val.num (f q)
  | v => v

/-- Dictionary assignment `d[k] = f(d[k])` guarded by `if k in d`:
transform the value at key `k`, leave everything else in place, insert
nothing. -/
def updateKey (k : String) (f : Val → Val) (l : List (String × Val)) :
    List (String × Val) :=
  l.map (fun kv => if kv.1 = k then (kv.1, f kv.2) else kv)

/-- `format_results`: `{}` for a falsy input; otherwise a copy with each
present percentage field replaced by `round(v * 100, 2)` and each present
decimal field replaced by `round(v, 4)`. -/
def format_results (rs : List (String × Val)) : List (String × Val) :=
  if rs = [] then []
  else
    decimalFields.foldl (fun a k => updateKey k (fmtNum (pround 4)) a)
      (percentageFields.foldl
        (fun a k => updateKey k (fmtNum (fun q => pround 2 (q * 100))) a) rs)

/-- Value transformation the claims ascribe to `format_results` for a
key/value pair. -/
def expectedVal (k : String) (v : Val) : Val :=
  if k ∈ percentageFields then fmtNum (fun q => pround 2 (q * 100)) v
  else if k ∈ decimalFields then fmtNum (pround 4) v
  else v

open Classical in
/-- Sharpe ratio written exactly as the specification states it:
`mean(R − rf_daily) × 252 / (std(R) × √252)`, and `0` when `std(R) = 0`,
with `rf_daily = (1+r)^(1/252) − 1` and `std` the unbiased standard
deviation.  Stated with the guard on `std` itself, to be compared with
the code's `calculate_sharpe_ratio`. -/
noncomputable def sharpe_ratio_spec (rf : ℝ) (l : List ℚ) : ℝ :=
  if std l = 0 then 0
  else ((l.map (fun r => (r : ℝ) - risk_free_rate_daily rf)).sum / l.length)
        * 252 / (std l * Real.sqrt 252)

end Analyzer

namespace Analyzer

/-- Sample variance is non-negative. -/
theorem var1_nonneg (l : List ℚ) : 0 ≤ var1 l := by
  unfold var1
  rcases l with _ | ⟨x, xs⟩
  · simp
  · apply div_nonneg
    · apply List.sum_nonneg
      intro a ha
      obtain ⟨y, -, rfl⟩ := List.mem_map.mp ha
      exact sq_nonneg _
    · simp only [List.length_cons]
      push_cast
      linarith

/-- The standard deviation vanishes exactly when the sample variance
does, so the code's decidable `var1` guard is the `std() == 0` test. -/
theorem std_eq_zero_iff (l : List ℚ) : std l = 0 ↔ var1 l = 0 := by
  unfold std
  rw [Real.sqrt_eq_zero (by exact_mod_cast var1_nonneg l)]
  exact Rat.cast_eq_zero

/-- C1: the claim that beta of a series against itself equals 1.0 fails
on the code.  For the two-observation series R = [0, 1/100],
`_calculate_beta(R, R)` evaluates to 2: `np.cov` divides by n−1 while
`np.var` divides by n, so a self-comparison yields n/(n−1), not 1. -/
theorem beta_self_eq_two_not_one :
    calculate_beta [0, 1 / 100] [0, 1 / 100] = 2 ∧
    calculate_beta [0, 1 / 100] [0, 1 / 100] ≠ 1 := by
  constructor <;> norm_num [calculate_beta, cov1, var0, mean]

/-- C4: `_align_data` returns `None` (the `InsufficientOverlap` failure)
exactly when the date intersection has fewer than 30 dates; on success
both series carry exactly the intersection dates, in the strictly
increasing order inherited from the (sorted, unique) input index, with
values of matching length obtained by restricting each input series to
those dates. -/
theorem align_data_spec (a b : PSeries)
    (ha : List.Chain' (· < ·) a.dates) :
    (align_data a b = none ↔ (common_dates a b).length < 30) ∧
    (∀ pa pb, align_data a b = some (pa, pb) →
      pa.dates = common_dates a b ∧ pb.dates = common_dates a b ∧
      pa.values.length = (common_dates a b).length ∧
      pb.values.length = (common_dates a b).length ∧
      List.Chain' (· < ·) pa.dates ∧
      pa.values = (common_dates a b).map (lookupVal a) ∧
      pb.values = (common_dates a b).map (lookupVal b)) := by
  have hchain : List.Chain' (· < ·) (common_dates a b) := by
    rw [List.chain'_iff_pairwise] at ha ⊢
    exact ha.filter _
  constructor
  · unfold align_data
    by_cases h : (common_dates a b).length < 30
    · simp [h]
    · simp [h]
  · intro pa pb hsome
    unfold align_data at hsome
    by_cases h : (common_dates a b).length < 30
    · rw [if_pos h] at hsome
      exact absurd hsome (by simp)
    · rw [if_neg h] at hsome
      injection hsome with hpair
      rw [Prod.mk.injEq] at hpair
      obtain ⟨hpa, hpb⟩ := hpair
      subst hpa
      subst hpb
      refine ⟨rfl, rfl, ?_, ?_, hchain, rfl, rfl⟩
      · simp [reindex]
      · simp [reindex]

/-- Witness for C4 at a concrete pair of series sharing 31 strictly
increasing dates. -/
theorem align_data_spec_witness :
    align_data ⟨List.range 31, List.replicate 31 0⟩
        ⟨List.range 31, List.replicate 31 0⟩ = none ↔
      (common_dates ⟨List.range 31, List.replicate 31 0⟩
        ⟨List.range 31, List.replicate 31 0⟩).length < 30 :=
  (align_data_spec ⟨List.range 31, List.replicate 31 0⟩
    ⟨List.range 31, List.replicate 31 0⟩
    (by rw [List.chain'_iff_pairwise]; exact List.pairwise_lt_range 31)).1

/-- Running maximum preserves length. -/
theorem runningMax_length (xs : List ℚ) :
    (runningMax xs).length = xs.length := by
  induction xs with
  | nil => rfl
  | cons x xs ih => simp [runningMax, ih]

/-- Each value is bounded by its running maximum, pointwise. -/
theorem le_runningMax (xs : List ℚ) :
    List.Forall₂ (· ≤ ·) xs (runningMax xs) := by
  induction xs with
  | nil => exact List.Forall₂.nil
  | cons x xs ih =>
      rw [runningMax]
      refine List.Forall₂.cons (le_refl x) ?_
      rw [List.forall₂_map_right_iff]
      exact ih.imp (fun a c hac => le_trans hac (le_max_right x c))

/-- The running maximum of an everywhere-positive list is positive. -/
theorem runningMax_pos (xs : List ℚ) (h : ∀ x ∈ xs, 0 < x) :
    ∀ y ∈ runningMax xs, 0 < y := by
  induction xs with
  | nil => simp [runningMax]
  | cons x xs ih =>
      intro y hy
      rw [runningMax] at hy
      rcases List.mem_cons.mp hy with rfl | hy'
      · exact h y (List.mem_cons_self _ _)
      · obtain ⟨z, hz, rfl⟩ := List.mem_map.mp hy'
        exact lt_max_of_lt_right
          (ih (fun a ha => h a (List.mem_cons_of_mem _ ha)) z hz)

/-- A running maximum is non-decreasing. -/
theorem runningMax_chain (xs : List ℚ) :
    List.Chain' (· ≤ ·) (runningMax xs) := by
  induction xs with
  | nil => simp [runningMax]
  | cons x xs ih =>
      rw [runningMax, List.chain'_cons']
      constructor
      · intro y hy
        rw [List.head?_map] at hy
        obtain ⟨z, -, rfl⟩ := Option.map_eq_some'.mp (Option.mem_def.mp hy)
        exact le_max_left x z
      · exact List.chain'_map_of_chain' (max x)
          (fun a b hab => max_le_max (le_refl x) hab) ih

/-- On a non-decreasing list the running maximum is the identity. -/
theorem chain_runningMax_eq (xs : List ℚ)
    (h : List.Chain' (· ≤ ·) xs) : runningMax xs = xs := by
  induction xs with
  | nil => rfl
  | cons x xs ih =>
      rw [List.chain'_iff_pairwise, List.pairwise_cons] at h
      obtain ⟨hx, hxs⟩ := h
      rw [runningMax, ih (List.chain'_iff_pairwise.mpr hxs)]
      congr 1
      rw [List.map_congr_left (fun y hy => max_eq_right (hx y hy))]
      exact List.map_id' xs

/-- A left fold by `min` never exceeds its initial value. -/
theorem foldl_min_le_init (l : List ℚ) (a : ℚ) : l.foldl min a ≤ a := by
  induction l generalizing a with
  | nil => exact le_refl a
  | cons x l ih => exact le_trans (ih (min a x)) (min_le_left a x)

/-- A left fold by `min` never exceeds any list element. -/
theorem foldl_min_le_mem : ∀ (l : List ℚ) (a y : ℚ), y ∈ l →
    l.foldl min a ≤ y
  | x :: l, a, y, hy => by
      rcases List.mem_cons.mp hy with rfl | hy'
      · exact le_trans (foldl_min_le_init l (min a y)) (min_le_right a y)
      · exact foldl_min_le_mem l (min a x) y hy'

/-- A lower bound of the initial value and all elements bounds the fold. -/
theorem le_foldl_min : ∀ (l : List ℚ) (a c : ℚ), c ≤ a →
    (∀ y ∈ l, c ≤ y) → c ≤ l.foldl min a
  | [], _, _, hc, _ => hc
  | x :: l, a, c, hc, h =>
      le_foldl_min l (min a x) c
        (le_min hc (h x (List.mem_cons_self x l)))
        (fun y hy => h y (List.mem_cons_of_mem x hy))

/-- Minimum of a list whose head is `0` and whose elements are all
non-positive: it is non-positive, and vanishes exactly when every
element vanishes. -/
theorem listMin_spec (zs : List ℚ)
    (hall : ∀ y ∈ (0 : ℚ) :: zs, y ≤ 0) :
    listMin ((0 : ℚ) :: zs) ≤ 0 ∧
    (listMin ((0 : ℚ) :: zs) = 0 ↔ ∀ y ∈ (0 : ℚ) :: zs, y = 0) := by
  have hmin : listMin ((0 : ℚ) :: zs) = zs.foldl min 0 := rfl
  constructor
  · rw [hmin]; exact foldl_min_le_init zs 0
  · rw [hmin]
    constructor
    · intro h0 y hy
      rcases List.mem_cons.mp hy with rfl | hy'
      · rfl
      · have h1 := foldl_min_le_mem zs 0 y hy'
        have h2 := hall y hy
        rw [h0] at h1
        linarith
    · intro hz
      refine le_antisymm (foldl_min_le_init zs 0) ?_
      exact le_foldl_min zs 0 0 (le_refl 0)
        (fun y hy => (hz y (List.mem_cons_of_mem _ hy)).ge)

/-- Drawdowns of a list against a pointwise dominating positive list:
every entry is non-positive, and all entries vanish exactly when the two
lists coincide. -/
theorem zipWith_dd_spec (xs ms : List ℚ)
    (hle : List.Forall₂ (· ≤ ·) xs ms) (hm : ∀ m ∈ ms, 0 < m) :
    (∀ z ∈ List.zipWith (fun c m => (c - m) / m) xs ms, z ≤ 0) ∧
    ((∀ z ∈ List.zipWith (fun c m => (c - m) / m) xs ms, z = 0) ↔
      xs = ms) := by
  induction hle with
  | nil => simp
  | @cons a b l₁ l₂ hab hrest ih =>
      obtain ⟨ih1, ih2⟩ := ih (fun m hm' => hm m (List.mem_cons_of_mem _ hm'))
      have hb : 0 < b := hm b (List.mem_cons_self _ _)
      rw [List.zipWith_cons_cons]
      constructor
      · intro z hz
        rcases List.mem_cons.mp hz with rfl | hz'
        · exact div_nonpos_iff.mpr (Or.inr ⟨sub_nonpos.mpr hab, hb.le⟩)
        · exact ih1 z hz'
      · constructor
        · intro hall
          have h0 : (a - b) / b = 0 := hall _ (List.mem_cons_self _ _)
          have hab' : a = b := by
            rcases div_eq_zero_iff.mp h0 with h | h
            · exact sub_eq_zero.mp h
            · exact absurd h hb.ne'
          rw [hab',
            ih2.mp (fun z hz => hall z (List.mem_cons_of_mem _ hz))]
        · intro he
          injection he with h1 h2
          intro z hz
          rcases List.mem_cons.mp hz with rfl | hz'
          · rw [h1, sub_self, zero_div]
          · exact ih2.mpr h2 z hz'

/-- Core drawdown lemma over an arbitrary positive cumulative list:
the minimal drawdown against the running maximum is non-positive and
vanishes exactly when the list is non-decreasing. -/
theorem dd_core (xs : List ℚ) (hne : xs ≠ [])
    (hpos : ∀ x ∈ xs, 0 < x) :
    listMin (List.zipWith (fun c m => (c - m) / m) xs (runningMax xs)) ≤ 0 ∧
    (listMin (List.zipWith (fun c m => (c - m) / m) xs (runningMax xs)) = 0 ↔
      List.Chain' (· ≤ ·) xs) := by
  obtain ⟨x, xs', rfl⟩ := List.exists_cons_of_ne_nil hne
  obtain ⟨hle0, hiff⟩ :=
    zipWith_dd_spec (x :: xs') (runningMax (x :: xs'))
      (le_runningMax _) (runningMax_pos _ hpos)
  have hL : List.zipWith (fun c m => (c - m) / m) (x :: xs')
      (runningMax (x :: xs')) =
      (0 : ℚ) :: List.zipWith (fun c m => (c - m) / m) xs'
        ((runningMax xs').map (max x)) := by
    rw [runningMax, List.zipWith_cons_cons, sub_self, zero_div]
  rw [hL] at hle0 hiff ⊢
  obtain ⟨hmin_le, hmin_iff⟩ := listMin_spec _ hle0
  refine ⟨hmin_le, hmin_iff.trans (hiff.trans ?_)⟩
  constructor
  · intro he
    rw [he]
    exact runningMax_chain _
  · intro hc
    exact (chain_runningMax_eq _ hc).symm

/-- Products of `1 + r` over returns exceeding `-1`, from a positive
seed, are positive throughout. -/
theorem cumprodAux_pos : ∀ (l : List ℚ) (a : ℚ), 0 < a →
    (∀ r ∈ l, -1 < r) → ∀ x ∈ cumprodAux a l, 0 < x
  | [], _, _, _, x, hx => by cases hx
  | r :: rs, a, ha, hr, x, hx => by
      rw [cumprodAux] at hx
      have h1r : 0 < 1 + r := by
        have := hr r (List.mem_cons_self _ _)
        linarith
      rcases List.mem_cons.mp hx with rfl | hx'
      · exact mul_pos ha h1r
      · exact cumprodAux_pos rs (a * (1 + r)) (mul_pos ha h1r)
          (fun y hy => hr y (List.mem_cons_of_mem _ hy)) x hx'

/-- The cumulative product of a non-empty list is non-empty. -/
theorem cumprod_ne_nil (l : List ℚ) (h : l ≠ []) : cumprod l ≠ [] := by
  cases l with
  | nil => exact absurd rfl h
  | cons r rs => simp [cumprod, cumprodAux]

/-- C7: for every non-empty return series whose returns exceed −1 (as
returns derived from positive prices do), the max drawdown computed by
`_calculate_max_drawdown` is ≤ 0, and it equals 0 exactly when the
cumulative value series `(1 + returns).cumprod()` is non-decreasing. -/
theorem max_drawdown_spec (R : List ℚ) (h0 : R ≠ [])
    (h1 : ∀ r ∈ R, -1 < r) :
    calculate_max_drawdown R ≤ 0 ∧
    (calculate_max_drawdown R = 0 ↔
      List.Chain' (· ≤ ·) (cumprod R)) := by
  unfold calculate_max_drawdown drawdowns
  exact dd_core (cumprod R) (cumprod_ne_nil R h0)
    (cumprodAux_pos R 1 one_pos h1)

/-- Witness for C7 at the concrete return series [1/10, −1/2]. -/
theorem max_drawdown_spec_witness :
    calculate_max_drawdown [1 / 10, -1 / 2] ≤ 0 ∧
    (calculate_max_drawdown [1 / 10, -1 / 2] = 0 ↔
      List.Chain' (· ≤ ·) (cumprod [1 / 10, -1 / 2])) :=
  max_drawdown_spec [1 / 10, -1 / 2] (by simp)
    (by norm_num [List.forall_mem_cons])

/-- Indexing a zipWith inside both bounds. -/
theorem zipWith_getD (f : ℚ → ℚ → ℚ) : ∀ (a b : List ℚ) (t : ℕ),
    t < a.length → t < b.length →
    (List.zipWith f a b).getD t 0 = f (a.getD t 0) (b.getD t 0)
  | _ :: _, _ :: _, 0, _, _ => rfl
  | x :: a, y :: b, t + 1, ha, hb =>
      zipWith_getD f a b t (by simpa using ha) (by simpa using hb)
  | [], _, t, ha, _ => absurd ha (by simp)
  | _ :: _, [], t, _, hb => absurd hb (by simp)

/-- Indexing a map inside bounds. -/
theorem map_getD (f : ℚ → ℚ) : ∀ (l : List ℚ) (t : ℕ), t < l.length →
    (l.map f).getD t 0 = f (l.getD t 0)
  | _ :: _, 0, _ => rfl
  | x :: l, t + 1, h => map_getD f l t (by simpa using h)
  | [], t, h => absurd h (by simp)

/-- Indexing a replicated zero list. -/
theorem replicate_getD : ∀ (n t : ℕ),
    (List.replicate n (0 : ℚ)).getD t 0 = 0
  | 0, _ => rfl
  | _ + 1, 0 => rfl
  | n + 1, t + 1 => replicate_getD n t

/-- Length of a percentage-change series. -/
theorem pctChange_length (l : List ℚ) :
    (pctChange l).length = l.length - 1 := by
  simp only [pctChange, List.length_map, List.length_zip,
    List.length_tail]
  omega

/-- A key that `in columns` succeeds for has a `lookup` value from the
column list. -/
theorem lookup_of_contains : ∀ (cols : List (String × List ℚ))
    (s : String), (cols.map Prod.fst).contains s = true →
    ∃ v, cols.lookup s = some v ∧ (s, v) ∈ cols
  | [], s, h => by simp at h
  | c :: cols, s, h => by
      by_cases he : s = c.1
      · have hb : (s == c.1) = true := beq_iff_eq.mpr he
        refine ⟨c.2, ?_, ?_⟩
        · simp [List.lookup, hb]
        · subst he
          exact List.mem_cons.mpr (Or.inl rfl)
      · have hb : (s == c.1) = false := beq_eq_false_iff_ne.mpr he
        have h' : (cols.map Prod.fst).contains s = true := by
          simpa [List.contains_cons, hb] using h
        obtain ⟨v, hv1, hv2⟩ := lookup_of_contains cols s h'
        refine ⟨v, ?_, List.mem_cons_of_mem _ hv2⟩
        simpa [List.lookup, hb] using hv1

/-- Length of a matched instrument's return column: one less than the
shared price index. -/
theorem stockReturn_length (df : DataFrame) (s : String)
    (hc : ∀ c ∈ df.cols, c.2.length = df.dates.length)
    (hs : (df.cols.map Prod.fst).contains s = true) :
    (stockReturn df s).length = df.dates.length - 1 := by
  obtain ⟨v, hv, hmem⟩ := lookup_of_contains df.cols s hs
  rw [stockReturn, hv, Option.getD_some, pctChange_length,
    hc (s, v) hmem]

/-- The weighted accumulation loop of `_calculate_portfolio_returns`
preserves the row count. -/
theorem fold_length (df : DataFrame)
    (hc : ∀ c ∈ df.cols, c.2.length = df.dates.length) :
    ∀ (ws : List (String × ℚ)) (acc : List ℚ),
    acc.length = df.dates.length - 1 →
    (ws.foldl (fun a sw =>
      if (df.cols.map Prod.fst).contains sw.1 then
        List.zipWith (· + ·) a ((stockReturn df sw.1).map (fun r => r * sw.2))
      else a) acc).length = df.dates.length - 1
  | [], acc, hacc => hacc
  | sw :: ws, acc, hacc => by
      rw [List.foldl_cons]
      by_cases hcont : (df.cols.map Prod.fst).contains sw.1 = true
      · rw [if_pos hcont]
        exact fold_length df hc ws _ (by
          simp [List.length_zipWith, hacc,
            stockReturn_length df sw.1 hc hcont])
      · rw [if_neg hcont]
        exact fold_length df hc ws acc hacc

/-- The weighted accumulation loop of `_calculate_portfolio_returns`,
entrywise: at each in-range date position it adds to the accumulator the
sum of `weight * return` over the weight entries whose symbol is a price
column. -/
theorem fold_getD (df : DataFrame)
    (hc : ∀ c ∈ df.cols, c.2.length = df.dates.length) :
    ∀ (ws : List (String × ℚ)) (acc : List ℚ),
    acc.length = df.dates.length - 1 →
    ∀ t, t < df.dates.length - 1 →
    (ws.foldl (fun a sw =>
      if (df.cols.map Prod.fst).contains sw.1 then
        List.zipWith (· + ·) a ((stockReturn df sw.1).map (fun r => r * sw.2))
      else a) acc).getD t 0 =
    acc.getD t 0 +
      ((ws.filter (fun sw => (df.cols.map Prod.fst).contains sw.1)).map
        (fun sw => sw.2 * ((stockReturn df sw.1).getD t 0))).sum
  | [], acc, _, t, _ => by simp
  | sw :: ws, acc, hacc, t, ht => by
      rw [List.foldl_cons]
      by_cases hcont : (df.cols.map Prod.fst).contains sw.1 = true
      · have hsr := stockReturn_length df sw.1 hc hcont
        have hacc' : (List.zipWith (· + ·) acc
            ((stockReturn df sw.1).map (fun r => r * sw.2))).length =
            df.dates.length - 1 := by
          simp [List.length_zipWith, hacc, hsr]
        rw [if_pos hcont, fold_getD df hc ws _ hacc' t ht,
          zipWith_getD _ _ _ t (by rw [hacc]; exact ht)
            (by rw [List.length_map, hsr]; exact ht),
          map_getD _ _ t (by rw [hsr]; exact ht)]
        simp only [List.filter_cons, hcont, if_true, List.map_cons,
          List.sum_cons]
        ring
      · rw [if_neg hcont, fold_getD df hc ws acc hacc t ht]
        have hb : ((df.cols.map Prod.fst).contains sw.1) = false := by
          simpa using hcont
        rw [List.filter_cons, hb]
        simp only [Bool.false_eq_true, if_false]

/-- C5: with explicit weights, the portfolio return at each (in-range)
date position equals the sum of `weight * return` over weight entries
whose instrument is present in the price data, divided by the sum of all
originally supplied weights; when that sum is zero the raw unnormalized
weighted sum is returned. -/
theorem portfolio_returns_weighted_spec (df : DataFrame)
    (ws : List (String × ℚ)) (t : ℕ)
    (hc : ∀ c ∈ df.cols, c.2.length = df.dates.length)
    (ht : t < df.dates.length - 1) :
    (calculate_portfolio_returns df (some ws)).getD t 0 =
      (if (ws.map Prod.snd).sum = 0 then
        ((ws.filter (fun sw => (df.cols.map Prod.fst).contains sw.1)).map
          (fun sw => sw.2 * ((stockReturn df sw.1).getD t 0))).sum
      else
        ((ws.filter (fun sw => (df.cols.map Prod.fst).contains sw.1)).map
          (fun sw => sw.2 * ((stockReturn df sw.1).getD t 0))).sum /
          (ws.map Prod.snd).sum) := by
  have hbase : (List.replicate (df.dates.length - 1) (0 : ℚ)).length =
      df.dates.length - 1 := by simp
  have hfold := fold_getD df hc ws (List.replicate (df.dates.length - 1) 0)
    hbase t ht
  rw [replicate_getD, zero_add] at hfold
  simp only [calculate_portfolio_returns]
  by_cases h : (ws.map Prod.snd).sum = 0
  · rw [if_neg (fun hne => hne h), if_pos h]
    exact hfold
  · rw [if_pos h, if_neg h]
    have hflen := fold_length df hc ws
      (List.replicate (df.dates.length - 1) 0) hbase
    rw [map_getD _ _ t (by rw [hflen]; exact ht), hfold]

/-- Witness for C5 at a concrete two-column frame with a weight entry
whose symbol is absent from the price data. -/
theorem portfolio_returns_weighted_spec_witness :
    (calculate_portfolio_returns
      ⟨[0, 1, 2], [("A", [1, 2, 4]), ("B", [1, 3, 9])]⟩
      (some [("A", 1 / 2), ("B", 1 / 2), ("C", 5)])).getD 1 0 =
      (if (([("A", (1 : ℚ) / 2), ("B", 1 / 2), ("C", 5)].map Prod.snd).sum = 0) then
        (([("A", (1 : ℚ) / 2), ("B", 1 / 2), ("C", 5)].filter
          (fun sw => (([("A", [(1 : ℚ), 2, 4]), ("B", [1, 3, 9])].map Prod.fst)).contains sw.1)).map
          (fun sw => sw.2 * ((stockReturn ⟨[0, 1, 2], [("A", [1, 2, 4]), ("B", [1, 3, 9])]⟩ sw.1).getD 1 0))).sum
      else
        (([("A", (1 : ℚ) / 2), ("B", 1 / 2), ("C", 5)].filter
          (fun sw => (([("A", [(1 : ℚ), 2, 4]), ("B", [1, 3, 9])].map Prod.fst)).contains sw.1)).map
          (fun sw => sw.2 * ((stockReturn ⟨[0, 1, 2], [("A", [1, 2, 4]), ("B", [1, 3, 9])]⟩ sw.1).getD 1 0))).sum /
          (([("A", (1 : ℚ) / 2), ("B", 1 / 2), ("C", 5)].map Prod.snd).sum)) :=
  portfolio_returns_weighted_spec
    ⟨[0, 1, 2], [("A", [1, 2, 4]), ("B", [1, 3, 9])]⟩
    [("A", 1 / 2), ("B", 1 / 2), ("C", 5)] 1
    (by intro c hc
        rcases List.mem_cons.mp hc with rfl | hc'
        · rfl
        · rcases List.mem_cons.mp hc' with rfl | hc''
          · rfl
          · cases hc'')
    (by norm_num)

/-- Column projections of a date-indexed zip of two equally long value
lists recover the value lists. -/
theorem zip_cols_proj : ∀ (ds : List ℕ) (A B : List ℚ),
    ds.length = A.length → B.length = A.length →
    (ds.zip (A.zip B)).map (fun x => x.2.1) = A ∧
    (ds.zip (A.zip B)).map (fun x => x.2.2) = B
  | [], [], [], _, _ => ⟨rfl, rfl⟩
  | [], [], _ :: _, _, h2 => absurd h2 (by simp)
  | [], _ :: _, _, h1, _ => absurd h1 (by simp)
  | _ :: _, [], _, h1, _ => absurd h1 (by simp)
  | _ :: _, _ :: _, [], _, h2 => absurd h2 (by simp)
  | d :: ds, a :: A, b :: B, h1, h2 => by
      obtain ⟨ih1, ih2⟩ := zip_cols_proj ds A B
        (by simpa using h1) (by simpa using h2)
      constructor <;> simp [ih1, ih2]

/-- Cumulative products preserve length. -/
theorem cumprodAux_length : ∀ (l : List ℚ) (a : ℚ),
    (cumprodAux a l).length = l.length
  | [], _ => rfl
  | r :: rs, a => by
      simp [cumprodAux, cumprodAux_length rs]

/-- C9 (amended): the cumulative-value series built by
`_calculate_cumulative_returns` over an aligned window are exactly the
running products of `(1 + return)`; their first value is therefore
`1 + r₁` for first aligned return `r₁`, not 1.0 (the 1.0 base point is
implicit, one period before the first aligned date). -/
theorem cumulative_returns_amended (pa pb : PSeries)
    (h1 : pa.dates.length = pa.values.length)
    (h2 : pb.values.length = pa.values.length) :
    (calculate_cumulative_returns pa pb).map (fun x => x.2.1) =
      cumprod pa.values ∧
    (calculate_cumulative_returns pa pb).map (fun x => x.2.2) =
      cumprod pb.values ∧
    ∀ r rs, pa.values = r :: rs → (cumprod pa.values).headD 0 = 1 + r := by
  obtain ⟨hp, hq⟩ := zip_cols_proj pa.dates (cumprod pa.values)
    (cumprod pb.values)
    (by rw [cumprod, cumprodAux_length]; exact h1)
    (by rw [cumprod, cumprod, cumprodAux_length, cumprodAux_length]
        exact h2)
  refine ⟨hp, hq, ?_⟩
  intro r rs h
  rw [h, cumprod, cumprodAux, List.headD_cons, one_mul]

/-- Witness for C9 (amended) at a concrete aligned pair. -/
theorem cumulative_returns_amended_witness :
    (calculate_cumulative_returns ⟨[3, 4], [1 / 100, 2 / 100]⟩
      ⟨[3, 4], [0, 5 / 100]⟩).map (fun x => x.2.1) =
      cumprod (⟨[3, 4], [1 / 100, 2 / 100]⟩ : PSeries).values :=
  (cumulative_returns_amended ⟨[3, 4], [1 / 100, 2 / 100]⟩
    ⟨[3, 4], [0, 5 / 100]⟩ rfl rfl).1

/-- C9 (counterexample): on an aligned window whose first portfolio
return is 1%, the portfolio cumulative-value series built by
`_calculate_cumulative_returns` (and returned unchanged by every
successful analysis) starts at 1.01, not at 1.0. -/
theorem cumulative_not_indexed_to_one :
    ((calculate_cumulative_returns ⟨[1, 2], [1 / 100, 0]⟩
      ⟨[1, 2], [0, 0]⟩).headD (0, 0, 0)).2.1 = 101 / 100 ∧
    ((101 : ℚ) / 100) ≠ 1 := by
  constructor
  · norm_num [calculate_cumulative_returns, cumprod, cumprodAux]
  · norm_num

/-- Alignment fails (returns `None`) exactly when fewer than 30 common
dates exist. -/
theorem align_data_eq_none_iff (a b : PSeries) :
    align_data a b = none ↔ (common_dates a b).length < 30 := by
  unfold align_data
  by_cases h : (common_dates a b).length < 30
  · simp [h]
  · simp [h]

/-- C2 (amended): every field of the analysis result except
`analysis_date` depends only on the inputs; two calls with identical
inputs agree after zeroing the wall-clock date field, whatever the two
call dates are. -/
theorem analyze_deterministic_modulo_date (df : DataFrame)
    (bench : PSeries) (pn bn : String)
    (w : Option (List (String × ℚ))) (rf : ℝ) (d₁ d₂ : ℕ) :
    (analyze_portfolio_vs_benchmark df bench pn bn w rf d₁).map eraseDate =
    (analyze_portfolio_vs_benchmark df bench pn bn w rf d₂).map eraseDate := by
  unfold analyze_portfolio_vs_benchmark
  cases align_data (portRetOf df w) (benchRetOf bench) with
  | none => rfl
  | some p => cases p; rfl

/-- C2 (counterexample): the full result of
`analyze_portfolio_vs_benchmark` is not a function of the listed inputs
alone — `analysis_date` records `datetime.now()`, so the same inputs
analyzed on two different days give different outputs. -/
theorem analyze_depends_on_wall_clock :
    analyze_portfolio_vs_benchmark
      ⟨List.range 32, [("A", List.replicate 32 1)]⟩
      ⟨List.range 32, List.replicate 32 1⟩ "P" "B" none 0 0 ≠
    analyze_portfolio_vs_benchmark
      ⟨List.range 32, [("A", List.replicate 32 1)]⟩
      ⟨List.range 32, List.replicate 32 1⟩ "P" "B" none 0 1 := by
  intro h
  have h1 : (analyze_portfolio_vs_benchmark
      ⟨List.range 32, [("A", List.replicate 32 1)]⟩
      ⟨List.range 32, List.replicate 32 1⟩ "P" "B" none 0 0).map
      (fun r => r.analysis_date) = some 0 := rfl
  have h2 : (analyze_portfolio_vs_benchmark
      ⟨List.range 32, [("A", List.replicate 32 1)]⟩
      ⟨List.range 32, List.replicate 32 1⟩ "P" "B" none 0 1).map
      (fun r => r.analysis_date) = some 1 := rfl
  rw [h] at h1
  rw [h1] at h2
  exact absurd (Option.some.inj h2) (by decide)

/-- C3 (amended): no `MisalignedInputError` exists — the analyzer
re-aligns its two return series itself, and the call fails (empty
result) exactly when the date intersection has fewer than 30 dates,
whatever the input lengths. -/
theorem analyze_realigns (df : DataFrame) (bench : PSeries)
    (pn bn : String) (w : Option (List (String × ℚ))) (rf : ℝ) (d : ℕ) :
    analyze_portfolio_vs_benchmark df bench pn bn w rf d = none ↔
    (common_dates (portRetOf df w) (benchRetOf bench)).length < 30 := by
  unfold analyze_portfolio_vs_benchmark
  cases hal : align_data (portRetOf df w) (benchRetOf bench) with
  | none =>
      rw [align_data_eq_none_iff] at hal
      simp [hal]
  | some p =>
      constructor
      · intro hfalse
        exact absurd hfalse (by simp)
      · intro hlt
        have hn := (align_data_eq_none_iff _ _).mpr hlt
        rw [hn] at hal
        exact absurd hal (by simp)

/-- C3 (counterexample): return series of different lengths (40 vs 45)
reach the metrics computation — the call does not fail, it re-aligns and
produces a result, refuting the `MisalignedInputError` contract. -/
theorem misaligned_series_analyzed :
    (portRetOf ⟨List.range 41, [("A", List.replicate 41 1)]⟩
      none).values.length ≠
      (benchRetOf ⟨List.range 46, List.replicate 46 1⟩).values.length ∧
    (analyze_portfolio_vs_benchmark
      ⟨List.range 41, [("A", List.replicate 41 1)]⟩
      ⟨List.range 46, List.replicate 46 1⟩ "P" "B" none 0 0).isSome =
      true := by
  constructor
  · decide
  · rfl

/-- C8: a single analysis call either fails with no result at all or
returns a complete bundle: a result record whose every metric field is
the corresponding metric of the same aligned window, together with the
two aligned return series and the cumulative-value series. -/
theorem analyze_complete_or_none (df : DataFrame) (bench : PSeries)
    (pn bn : String) (w : Option (List (String × ℚ))) (rf : ℝ) (d : ℕ) :
    analyze_portfolio_vs_benchmark df bench pn bn w rf d = none ∨
    (∃ pa ba r,
      align_data (portRetOf df w) (benchRetOf bench) = some (pa, ba) ∧
      analyze_portfolio_vs_benchmark df bench pn bn w rf d = some r ∧
      r.portfolio_total_return = calculate_total_return pa.values ∧
      r.benchmark_total_return = calculate_total_return ba.values ∧
      r.excess_return = calculate_excess_return pa.values ba.values ∧
      r.portfolio_volatility = calculate_volatility pa.values ∧
      r.benchmark_volatility = calculate_volatility ba.values ∧
      r.portfolio_sharpe_ratio = calculate_sharpe_ratio rf pa.values ∧
      r.benchmark_sharpe_ratio = calculate_sharpe_ratio rf ba.values ∧
      r.alpha = calculate_alpha rf pa.values ba.values ∧
      r.beta = calculate_beta pa.values ba.values ∧
      r.correlation = calculate_correlation pa.values ba.values ∧
      r.r_squared = calculate_r_squared pa.values ba.values ∧
      r.tracking_error = calculate_tracking_error pa.values ba.values ∧
      r.information_ratio = calculate_information_ratio pa.values ba.values ∧
      r.max_drawdown = calculate_max_drawdown pa.values ∧
      r.var_95 = calculate_var (95 / 100) pa.values ∧
      r.var_99 = calculate_var (99 / 100) pa.values ∧
      r.up_capture = calculate_up_capture pa.values ba.values ∧
      r.down_capture = calculate_down_capture pa.values ba.values ∧
      r.calmar_ratio = calculate_calmar_ratio pa.values ∧
      r.portfolio_returns = pa ∧
      r.benchmark_returns = ba ∧
      r.cumulative_returns = calculate_cumulative_returns pa ba) := by
  unfold analyze_portfolio_vs_benchmark
  cases h : align_data (portRetOf df w) (benchRetOf bench) with
  | none => exact Or.inl rfl
  | some p =>
      obtain ⟨pa, ba⟩ := p
      exact Or.inr ⟨pa, ba, _, rfl, rfl, rfl, rfl, rfl, rfl, rfl, rfl,
        rfl, rfl, rfl, rfl, rfl, rfl, rfl, rfl, rfl, rfl, rfl, rfl,
        rfl, rfl, rfl, rfl⟩

/-- C6: the code's Sharpe ratio coincides with the specification's
formula `mean(R − rf_daily) × 252 / (std(R) × √252)` with the `std = 0 → 0`
edge case, for every return series and every annual risk-free rate. -/
theorem sharpe_ratio_matches_spec (rf : ℝ) (l : List ℚ) :
    calculate_sharpe_ratio rf l = sharpe_ratio_spec rf l := by
  unfold calculate_sharpe_ratio sharpe_ratio_spec
  by_cases h : var1 l = 0
  · rw [if_pos h, if_pos ((std_eq_zero_iff l).mpr h)]
  · rw [if_neg h, if_neg (fun hs => h ((std_eq_zero_iff l).mp hs))]

/-- A fold of guarded key updates over a duplicate-free key list acts as
one pointwise map over the dictionary entries. -/
theorem foldl_updateKey (f : Val → Val) : ∀ (F : List String)
    (l : List (String × Val)), F.Nodup →
    F.foldl (fun a k => updateKey k f a) l =
    l.map (fun kv => if kv.1 ∈ F then (kv.1, f kv.2) else kv)
  | [], l, _ => by simp
  | k :: F, l, hnd => by
      rw [List.foldl_cons]
      have hk : k ∉ F := (List.nodup_cons.mp hnd).1
      rw [foldl_updateKey f F (updateKey k f l)
        (List.nodup_cons.mp hnd).2]
      rw [updateKey, List.map_map]
      apply List.map_congr_left
      intro kv _
      by_cases hek : kv.1 = k
      · simp only [Function.comp_apply, if_pos hek]
        rw [if_neg (by simpa [hek] using hk),
          if_pos (List.mem_cons.mpr (Or.inl hek))]
      · simp only [Function.comp_apply, if_neg hek]
        by_cases hmem : kv.1 ∈ F
        · rw [if_pos hmem, if_pos (List.mem_cons.mpr (Or.inr hmem))]
        · rw [if_neg hmem,
            if_neg (fun hc => (List.mem_cons.mp hc).elim hek hmem)]

/-- Mapping a function over a list relates every entry to its image. -/
theorem forall₂_self_map (g : String × Val → String × Val) :
    ∀ (l : List (String × Val)),
    List.Forall₂ (fun a b => b = g a) l (l.map g)
  | [] => List.Forall₂.nil
  | _ :: l => List.Forall₂.cons rfl (forall₂_self_map g l)

/-- The two field lists of `format_results` are duplicate-free and
disjoint. -/
theorem fields_nodup_disjoint :
    percentageFields.Nodup ∧ decimalFields.Nodup ∧
    ∀ s ∈ percentageFields, s ∉ decimalFields := by
  refine ⟨?_, ?_, ?_⟩ <;> decide

/-- The composite entry transformation applied by `format_results`
is the per-key transformation the claim describes. -/
theorem format_entry_eq (kv : String × Val) :
    (fun kv : String × Val => if kv.1 ∈ decimalFields then
        (kv.1, fmtNum (pround 4) kv.2) else kv)
      ((fun kv : String × Val => if kv.1 ∈ percentageFields then
        (kv.1, fmtNum (fun q => pround 2 (q * 100)) kv.2) else kv) kv) =
    (kv.1, expectedVal kv.1 kv.2) := by
  obtain ⟨-, -, hdisj⟩ := fields_nodup_disjoint
  by_cases hp : kv.1 ∈ percentageFields
  · simp [expectedVal, hp, hdisj kv.1 hp]
  · by_cases hd : kv.1 ∈ decimalFields
    · simp [expectedVal, hp, hd]
    · simp [expectedVal, hp, hd]

/-- C10: on a non-empty results dictionary, `format_results` returns a
dictionary with the same keys in the same order whose entries are, in
place: percentage fields multiplied by 100 and rounded to 2 decimals,
decimal fields rounded to 4 decimals, and every other entry unchanged
(the input itself, being a copied dictionary, is untouched). -/
theorem format_results_spec (rs : List (String × Val)) (hne : rs ≠ []) :
    (format_results rs).map Prod.fst = rs.map Prod.fst ∧
    List.Forall₂ (fun a b => b = (a.1, expectedVal a.1 a.2)) rs
      (format_results rs) := by
  obtain ⟨hp, hd, -⟩ := fields_nodup_disjoint
  have hfmt : format_results rs =
      rs.map (fun kv => (kv.1, expectedVal kv.1 kv.2)) := by
    rw [format_results, if_neg hne, foldl_updateKey _ _ _ hp,
      foldl_updateKey _ _ _ hd, List.map_map]
    exact List.map_congr_left (fun kv _ => format_entry_eq kv)
  rw [hfmt]
  constructor
  · rw [List.map_map]
    rfl
  · exact forall₂_self_map _ rs

/-- Witness for C10 at a concrete three-entry dictionary. -/
theorem format_results_spec_witness :
    (format_results [("alpha", Val.num (123456 / 1000000)),
      ("portfolio_name", Val.str "P"),
      ("beta", Val.num (123456 / 1000000))]).map Prod.fst =
    ([("alpha", Val.num ((123456 : ℚ) / 1000000)),
      ("portfolio_name", Val.str "P"),
      ("beta", Val.num (123456 / 1000000))]).map Prod.fst :=
  (format_results_spec [("alpha", Val.num (123456 / 1000000)),
    ("portfolio_name", Val.str "P"),
    ("beta", Val.num (123456 / 1000000))] (by simp)).1

end Analyzer
